import Mathlib

/-!
Verification development for the octet persistent key-value store.

The definitions below are shallow embeddings of the C++ sources:

* `src/storage/journal_manager.cpp` — journal entry (de)serialization,
  journal replay, reading entries from a checkpoint, truncation;
* `src/storage/storage_manager.cpp`  — snapshot codec, the storage
  manager's insert/get/update/remove/createSnapshot state machine;
* `src/storage/uuid_generator.cpp`   — identifier generation/validation.

Byte strings handled as C++ `std::string` of text are modelled as
`List Char`; the snapshot codec, which treats strings as raw byte
buffers, is modelled over `List Nat` (each element a byte value).
File I/O success/failure is a Boolean oracle parameter; with the
oracle fixed, every function is a pure function of its inputs, exactly
mirroring the C++ control flow.
-/

namespace Octet

/-! ## Journal entries (`journal_manager.cpp`) -/

/-- `OperationType` from `journal_manager.hpp`; the order matches
`OPERATION_TYPE_STRINGS = {INSERT, UPDATE, REMOVE, CHECKPOINT}`. -/
inductive OperationType where
  | INSERT
  | UPDATE
  | REMOVE
  | CHECKPOINT
deriving DecidableEq, Repr

/-- String form of an operation type (`operationTypeToString`). -/
def operationTypeToString : OperationType → List Char
  | .INSERT => "INSERT".data
  | .UPDATE => "UPDATE".data
  | .REMOVE => "REMOVE".data
  | .CHECKPOINT => "CHECKPOINT".data

/-- `stringToOperationType`: compare against the four names in array
order, first match wins, otherwise `none`. -/
def stringToOperationType (s : List Char) : Option OperationType :=
  if s = "INSERT".data then some .INSERT
  else if s = "UPDATE".data then some .UPDATE
  else if s = "REMOVE".data then some .REMOVE
  else if s = "CHECKPOINT".data then some .CHECKPOINT
  else none

/-- `escapeString`: `\` and `|` are prefixed with `\`, LF becomes `\n`,
CR becomes `\r`, every other character is copied. -/
def escapeString : List Char → List Char
  | [] => []
  | c :: rest =>
    if c = '|' ∨ c = '\\' then '\\' :: c :: escapeString rest
    else if c = '\n' then '\\' :: 'n' :: escapeString rest
    else if c = '\r' then '\\' :: 'r' :: escapeString rest
    else c :: escapeString rest

/-- State machine of `unescapeString`; the Boolean is the `escaped`
flag.  After a `\`, `n` yields LF, `r` yields CR and any other
character stands for itself; a trailing lone `\` is dropped. -/
def unescapeAux : Bool → List Char → List Char
  | _, [] => []
  | true, c :: rest =>
    (if c = 'n' then '\n' else if c = 'r' then '\r' else c) :: unescapeAux false rest
  | false, c :: rest =>
    if c = '\\' then unescapeAux true rest else c :: unescapeAux false rest

/-- `unescapeString` starts with the `escaped` flag down. -/
def unescapeString (s : List Char) : List Char := unescapeAux false s

/-- `JournalEntry`: type, uuid, data and timestamp fields.  (The C++
constructor substitutes the current wall-clock time for an empty
timestamp; the functions below always construct entries with the
timestamp they parsed or were given.) -/
structure JournalEntry where
  type : OperationType
  uuid : List Char
  data : List Char
  timestamp : List Char
deriving DecidableEq, Repr

/-- `JournalEntry::serialize`: `TYPE|ID|TIMESTAMP|ESCAPED_DATA`
followed by a line feed. -/
def JournalEntry.serialize (e : JournalEntry) : List Char :=
  operationTypeToString e.type ++ '|' ::
    (e.uuid ++ '|' :: (e.timestamp ++ '|' :: (escapeString e.data ++ ['\n'])))

/-- Split a string at its first `|`: the characters before it and the
characters after it, or `none` when there is no `|`.  This is how the
greedy `([^|]+)\|` groups of the deserialization regex consume their
input. -/
def splitBar : List Char → Option (List Char × List Char)
  | [] => none
  | c :: rest =>
    if c = '|' then some ([], rest)
    else (splitBar rest).map (fun p => (c :: p.1, p.2))

/-- `JournalEntry::deserialize`, the regex
`^(INSERT|UPDATE|REMOVE|CHECKPOINT)\|([^|]+)\|([^|]+)\|(.*)$` applied
with `regex_match` (the whole line must match): the first field must be
one of the four type names, uuid and timestamp are the nonempty
bar-free fields two and three, and the data field is everything after
the third `|`; ECMAScript `.` excludes line terminators, so a raw LF or
CR in the data field makes the match fail.  The data field is
unescaped. -/
def JournalEntry.deserialize (line : List Char) : Option JournalEntry :=
  match splitBar line with
  | none => none
  | some (tstr, r1) =>
    match stringToOperationType tstr with
    | none => none
    | some ty =>
      match splitBar r1 with
      | none => none
      | some (uuid, r2) =>
        if uuid = [] then none
        else
          match splitBar r2 with
          | none => none
          | some (ts, dataRaw) =>
            if ts = [] then none
            else if '\n' ∈ dataRaw ∨ '\r' ∈ dataRaw then none
            else some ⟨ty, uuid, unescapeString dataRaw, ts⟩

/-- The line decomposition performed by repeated
`readLineFromJournalContent` calls: maximal `'\n'`-free segments; the
segment before every line feed is produced (hence `"a\n\nb"` yields
`["a", "", "b"]`), and the final segment is produced only when the
content does not end with a line feed (the reading loop stops once the
position reaches the end of the content). -/
def journalLines : List Char → List (List Char)
  | [] => []
  | c :: rest =>
    if c = '\n' then [] :: journalLines rest
    else
      match journalLines rest with
      | [] => [[c]]
      | l :: ls => (c :: l) :: ls

/-- Skip-or-parse for one journal line, as done by every journal scan:
empty lines and lines starting with `#` are skipped by
`readLineFromJournalContent`, lines that fail to deserialize are
skipped (logged) by the caller. -/
def parseJournalLine (line : List Char) : Option JournalEntry :=
  if line = [] ∨ line.head? = some '#' then none
  else JournalEntry.deserialize line

/-! ## The in-memory map

`std::unordered_map<std::string, std::string>` with unique keys;
iteration order is irrelevant to the semantics, the model fixes it as
the list order. -/

/-- The in-memory map: an association list with unique keys. -/
abbrev Store := List (List Char × List Char)

/-- `map.find(key)` — the value stored under `key`, if any. -/
def storeFind : Store → List Char → Option (List Char)
  | [], _ => none
  | (k, v) :: rest, key => if k = key then some v else storeFind rest key

/-- `map[key] = val` — assign if the key is present, insert otherwise. -/
def storeSet : Store → List Char → List Char → Store
  | [], key, val => [(key, val)]
  | (k, v) :: rest, key, val =>
    if k = key then (k, val) :: rest else (k, v) :: storeSet rest key val

/-- `map.erase(key)` — remove the (unique) binding of `key`, if any. -/
def storeErase : Store → List Char → Store
  | [], _ => []
  | (k, v) :: rest, key => if k = key then rest else (k, v) :: storeErase rest key

/-! ## Journal replay (`JournalManager::replayJournal` and helpers) -/

/-- `JournalManager::applyOperation`: INSERT assigns unconditionally;
UPDATE of an absent id fails (is skipped), otherwise assigns; REMOVE of
an absent id fails (is skipped), otherwise erases; CHECKPOINT succeeds
with no effect.  The Boolean is the return value (used by the caller
only for its applied-operations counter and logging). -/
def applyOperation (e : JournalEntry) (m : Store) : Bool × Store :=
  match e.type with
  | .INSERT => (true, storeSet m e.uuid e.data)
  | .UPDATE =>
    if storeFind m e.uuid = none then (false, m) else (true, storeSet m e.uuid e.data)
  | .REMOVE =>
    if storeFind m e.uuid = none then (false, m) else (true, storeErase m e.uuid)
  | .CHECKPOINT => (true, m)

/-- The body of the replay loop once a line has parsed into an entry.
With a start-after checkpoint (`applyFrom = true`): a CHECKPOINT entry
only toggles the `found` flag when its uuid matches and is never
applied; other entries are skipped until the flag is up, then applied.
Without a checkpoint, every entry is applied. -/
def replayApplyEntry (applyFrom : Bool) (cp : List Char) (st : Bool × Store)
    (e : JournalEntry) : Bool × Store :=
  if applyFrom then
    if e.type = .CHECKPOINT then (if e.uuid = cp then true else st.1, st.2)
    else if st.1 then (st.1, (applyOperation e st.2).2) else st
  else (st.1, (applyOperation e st.2).2)

/-- One iteration of the replay loop: read a line (skipping blank and
comment lines), deserialize it (skipping malformed lines), process the
entry. -/
def replayLineStep (applyFrom : Bool) (cp : List Char) (st : Bool × Store)
    (line : List Char) : Bool × Store :=
  match parseJournalLine line with
  | none => st
  | some e => replayApplyEntry applyFrom cp st e

/-- `JournalManager::replayJournal` on given journal content, start-after
checkpoint id and initial map.  An explicitly empty checkpoint id is
rejected up front.  The result is the success flag together with the map
after replay (the C++ function mutates the map it is handed). -/
def replayJournal (content : List Char) (lastCheckpoint : Option (List Char))
    (m : Store) : Bool × Store :=
  if lastCheckpoint = some [] then (false, m)
  else
    let applyFrom := lastCheckpoint.isSome
    let cp := lastCheckpoint.getD []
    let r := (journalLines content).foldl (replayLineStep applyFrom cp) (false, m)
    if applyFrom && !r.1 then (false, r.2) else (true, r.2)

/-! ## Reading entries and truncation
(`JournalManager::readAllEntriesFrom`, `rewriteJournal`,
`truncateJournalToCheckpoint`) -/

/-- One iteration of the `readAllEntriesFrom` loop.  With a checkpoint
filter, CHECKPOINT entries only toggle the `found` flag (when matching)
and are never collected, and other entries are collected only once the
flag is up; without a filter every entry is collected. -/
def readLineStep (readFrom : Bool) (cp : List Char) (st : Bool × List JournalEntry)
    (line : List Char) : Bool × List JournalEntry :=
  match parseJournalLine line with
  | none => st
  | some e =>
    if readFrom then
      if e.type = .CHECKPOINT then (if e.uuid = cp then true else st.1, st.2)
      else if st.1 then (st.1, st.2 ++ [e]) else st
    else (st.1, st.2 ++ [e])

/-- `JournalManager::readAllEntriesFrom` on given journal content: fails
only on an explicitly empty checkpoint id (file-read failure is outside
the model), otherwise returns the collected entries. -/
def readAllEntriesFrom (checkpointId : Option (List Char)) (content : List Char) :
    Option (List JournalEntry) :=
  if checkpointId = some [] then none
  else
    let readFrom := checkpointId.isSome
    let cp := checkpointId.getD []
    some ((journalLines content).foldl (readLineStep readFrom cp) (false, [])).2

/-- The journal header line `# OCTET Journal Format v1.0\n`. -/
def journalHeader : List Char := "# OCTET Journal Format v1.0\n".data

/-- `JournalManager::rewriteJournal`: the header followed by each
entry's serialization, each followed by one extra line feed
(`oss << entry.serialize() << "\n"`). -/
def rewriteJournal (entries : List JournalEntry) : List Char :=
  journalHeader ++ (entries.map (fun e => e.serialize ++ ['\n'])).flatten

/-- Index of the first CHECKPOINT entry carrying the given id — the
search loop of `truncateJournalToCheckpoint` (and the boundary the
spec's replay contract looks for). -/
def findCheckpointIdx (c : List Char) : List JournalEntry → Option Nat
  | [] => none
  | e :: rest =>
    if e.type = .CHECKPOINT ∧ e.uuid = c then some 0
    else (findCheckpointIdx c rest).map (· + 1)

/-- `JournalManager::truncateJournalToCheckpoint` as a function from the
old journal content to the new one; `none` is failure, in which case the
file is left unchanged.  The code rejects an empty checkpoint id, reads
the entries via `readAllEntriesFrom checkpointId`, searches *that* list
for the checkpoint entry, drops everything before it, and atomically
rewrites the journal. -/
def truncateJournalToCheckpoint (checkpointId : List Char) (content : List Char) :
    Option (List Char) :=
  if checkpointId = [] then none
  else
    match readAllEntriesFrom (some checkpointId) content with
    | none => none
    | some allEntries =>
      match findCheckpointIdx checkpointId allEntries with
      | none => none
      | some i => some (rewriteJournal (allEntries.drop i))

/-! ## Snapshot codec (`serializeMap` / `deserializeMap` in
`storage_manager.cpp`)

The codec works on raw bytes; a byte buffer is a `List Nat` whose
elements are byte values, and the map is a list of (key bytes, value
bytes) pairs in iteration order. -/

/-- A 32-bit value laid out as 4 little-endian bytes.  (The C++ code
appends the 4 bytes of a `uint32_t`; the `static_cast<uint32_t>` of a
larger size is absorbed by the modular byte extraction.) -/
def u32le (n : Nat) : List Nat :=
  [n % 256, n / 256 % 256, n / 65536 % 256, n / 16777216 % 256]

/-- The per-entry body of `serializeMap`: 4-byte key length, key bytes,
4-byte value length, value bytes, for each entry in order. -/
def serializeEntries : List (List Nat × List Nat) → List Nat
  | [] => []
  | (k, v) :: rest =>
    u32le k.length ++ k ++ (u32le v.length ++ v ++ serializeEntries rest)

/-- `serializeMap`: 4-byte entry count, then the entries. -/
def serializeMap (m : List (List Nat × List Nat)) : List Nat :=
  u32le m.length ++ serializeEntries m

/-- Read a 4-byte little-endian integer from the front of the buffer
(`sizeInvalid` / `readSize` in `deserializeMap`). -/
def readU32 : List Nat → Option (Nat × List Nat)
  | b0 :: b1 :: b2 :: b3 :: rest => some (b0 + 256 * (b1 + 256 * (b2 + 256 * b3)), rest)
  | _ => none

/-- Read `n` raw bytes from the front of the buffer; fails when fewer
than `n` bytes remain (`strSizeInvalid`). -/
def readBytes (n : Nat) (l : List Nat) : Option (List Nat × List Nat) :=
  if n ≤ l.length then some (l.take n, l.drop n) else none

/-- The reading loop of `deserializeMap`: `count` iterations, each
reading key length, key, value length, value.  Leftover bytes after the
last entry are ignored, as in the C++ code. -/
def deserializeEntries : Nat → List Nat → Option (List (List Nat × List Nat))
  | 0, _ => some []
  | n + 1, buf =>
    match readU32 buf with
    | none => none
    | some (klen, buf1) =>
      match readBytes klen buf1 with
      | none => none
      | some (k, buf2) =>
        match readU32 buf2 with
        | none => none
        | some (vlen, buf3) =>
          match readBytes vlen buf3 with
          | none => none
          | some (v, buf4) =>
            match deserializeEntries n buf4 with
            | none => none
            | some rest => some ((k, v) :: rest)

/-- Whether the map already holds a binding for `k`. -/
def mapContainsKey : List (List Nat × List Nat) → List Nat → Bool
  | [], _ => false
  | (k', _) :: rest, k => if k' = k then true else mapContainsKey rest k

/-- `map.emplace` applied to every parsed pair in order: a pair whose
key is already bound is dropped, others are added. -/
def emplaceAll (acc : List (List Nat × List Nat)) :
    List (List Nat × List Nat) → List (List Nat × List Nat)
  | [] => acc
  | (k, v) :: rest =>
    emplaceAll (if mapContainsKey acc k then acc else acc ++ [(k, v)]) rest

/-- `deserializeMap`: read the count, read that many entries, build the
map by `emplace`. -/
def deserializeMap (buf : List Nat) : Option (List (List Nat × List Nat)) :=
  match readU32 buf with
  | none => none
  | some (count, rest) =>
    match deserializeEntries count rest with
    | none => none
    | some entries => some (emplaceAll [] entries)

/-! ## Identifier generator (`uuid_generator.cpp`) -/

/-- One lowercase hexadecimal digit, as emitted by `std::hex`. -/
def hexDigitChar (n : Nat) : Char :=
  if n < 10 then Char.ofNat ('0'.toNat + n) else Char.ofNat ('a'.toNat + (n - 10))

/-- `std::setw w << std::setfill('0') << std::hex << n` for a value
known to fit in `w` digits: exactly `w` lowercase hex digits, most
significant first. -/
def toHexPad : Nat → Nat → List Char
  | 0, _ => []
  | w + 1, n => toHexPad w (n / 16) ++ [hexDigitChar (n % 16)]

/-- `UuidGenerator::generateUuid` as a function of its three
nondeterministic inputs: the clock reading `timestamp`, the 64-bit
random draw `rnd` and the fetched counter value `cnt`.
Layout: 8 hex digits of the low 32 timestamp bits, 4 of the next 16,
literal `4` and 3 digits of the counter, the variant digit
`8 + (rnd & 3)` and 3 digits of `rnd >> 2`, then 12 digits of
`rnd >> 14`, with hyphens between the five groups. -/
def generateUuid (timestamp rnd cnt : Nat) : List Char :=
  toHexPad 8 (timestamp % 2 ^ 32) ++ '-' ::
    (toHexPad 4 (timestamp / 2 ^ 32 % 2 ^ 16) ++ '-' ::
      ('4' :: toHexPad 3 (cnt % 2 ^ 12) ++ '-' ::
        (hexDigitChar (8 + rnd % 4) :: toHexPad 3 (rnd / 4 % 2 ^ 12) ++ '-' ::
          toHexPad 12 (rnd / 2 ^ 14 % 2 ^ 48))))

/-- `[0-9a-f]`: one lowercase hexadecimal character. -/
def isHexLower (c : Char) : Bool :=
  ('0' ≤ c && c ≤ '9') || ('a' ≤ c && c ≤ 'f')

/-- Match exactly `n` lowercase hex characters at the front of the
string (`[0-9a-f]{n}`), returning the rest. -/
def matchHexRun : Nat → List Char → Option (List Char)
  | 0, s => some s
  | _ + 1, [] => none
  | n + 1, c :: s => if isHexLower c then matchHexRun n s else none

/-- Match one literal character. -/
def matchLit (c : Char) : List Char → Option (List Char)
  | [] => none
  | c' :: s => if c' = c then some s else none

/-- Match the variant character class `[89ab]`. -/
def matchVariantChar : List Char → Option (List Char)
  | [] => none
  | c :: s => if c = '8' ∨ c = '9' ∨ c = 'a' ∨ c = 'b' then some s else none

/-- `UuidGenerator::isValidUuid`: `regex_match` against
`^[0-9a-f]{8}-[0-9a-f]{4}-4[0-9a-f]{3}-[89ab][0-9a-f]{3}-[0-9a-f]{12}$`;
all fixed-width pieces matched left to right, and the whole string must
be consumed. -/
def isValidUuid (s : List Char) : Bool :=
  match (matchHexRun 8 s).bind (matchLit '-') |>.bind (matchHexRun 4)
      |>.bind (matchLit '-') |>.bind (matchLit '4') |>.bind (matchHexRun 3)
      |>.bind (matchLit '-') |>.bind matchVariantChar |>.bind (matchHexRun 3)
      |>.bind (matchLit '-') |>.bind (matchHexRun 12) with
  | some [] => true
  | _ => false

/-! ## Storage manager state machine (`storage_manager.cpp`)

The state gathers everything the claims speak about: the in-memory map,
the journal tail (entries appended so far), the cached last-checkpoint
id, the snapshot file, the operation counter, its threshold and the
snapshotter request flag.  Journal-append and snapshot-write success
are oracle Booleans; the freshly generated uuid and the entry timestamp
are parameters. -/

structure SMState where
  dataStore : Store
  journal : List JournalEntry
  lastCheckpointId : Option (List Char)
  snapshotFile : Option Store
  ops : Nat
  threshold : Nat
  snapshotRequested : Bool
deriving DecidableEq, Repr

/-- `JournalManager::writeOperation`: refuse an empty uuid; on a
successful append the serialized entry joins the journal and, for a
CHECKPOINT, the cached checkpoint id is updated; on failure nothing
changes. -/
def writeOp (st : SMState) (t : OperationType) (uuid data ts : List Char)
    (ok : Bool) : Bool × SMState :=
  if uuid = [] then (false, st)
  else if ok then
    (true, { st with
      journal := st.journal ++ [⟨t, uuid, data, ts⟩],
      lastCheckpointId := if t = .CHECKPOINT then some uuid else st.lastCheckpointId })
  else (false, st)

/-- `StorageManager::notifyOperation`: increment the counter; if it
meets the threshold, request a snapshot. -/
def notifyOperation (st : SMState) : SMState :=
  let current := st.ops + 1
  { st with
    ops := current,
    snapshotRequested := if st.threshold ≤ current then true else st.snapshotRequested }

/-- `StorageManager::insert` with the generated uuid as parameter:
journal append first, then map assignment, then `notifyOperation`; on
append failure return `none` with nothing changed. -/
def smInsert (st : SMState) (uuid data ts : List Char) (ok : Bool) :
    Option (List Char) × SMState :=
  match writeOp st .INSERT uuid data ts ok with
  | (false, st1) => (none, st1)
  | (true, st1) =>
    (some uuid, notifyOperation { st1 with dataStore := storeSet st1.dataStore uuid data })

/-- `StorageManager::get`: a shared-lock lookup; the state is untouched. -/
def smGet (st : SMState) (uuid : List Char) : Option (List Char) × SMState :=
  (storeFind st.dataStore uuid, st)

/-- `StorageManager::update`: fail fast when the id is absent (before
any journal write); otherwise append, then assign, then notify. -/
def smUpdate (st : SMState) (uuid data ts : List Char) (ok : Bool) : Bool × SMState :=
  if storeFind st.dataStore uuid = none then (false, st)
  else
    match writeOp st .UPDATE uuid data ts ok with
    | (false, st1) => (false, st1)
    | (true, st1) =>
      (true, notifyOperation { st1 with dataStore := storeSet st1.dataStore uuid data })

/-- `StorageManager::remove`: fail fast when the id is absent;
otherwise append, then erase, then notify. -/
def smRemove (st : SMState) (uuid ts : List Char) (ok : Bool) : Bool × SMState :=
  if storeFind st.dataStore uuid = none then (false, st)
  else
    match writeOp st .REMOVE uuid [] ts ok with
    | (false, st1) => (false, st1)
    | (true, st1) =>
      (true, notifyOperation { st1 with dataStore := storeErase st1.dataStore uuid })

/-- `StorageManager::getEntriesCount`: the map size; state untouched. -/
def smGetEntriesCount (st : SMState) : Nat × SMState :=
  (st.dataStore.length, st)

/-- Durable effects of `createSnapshot`, in the order they happen. -/
inductive SnapshotEv where
  | snapWrite (m : Store)
  | cpAppend (id : List Char)
deriving DecidableEq, Repr

/-- `StorageManager::createSnapshot` with the generated snapshot id and
the two I/O outcomes as parameters: copy the map, write the snapshot
file atomically, append the CHECKPOINT carrying the snapshot id, and on
full success reset the operation counter.  The event list records the
successful durable effects in program order. -/
def createSnapshot (st : SMState) (snapshotId ts : List Char)
    (writeOk appendOk : Bool) : Bool × SMState × List SnapshotEv :=
  let dataCopy := st.dataStore
  if !writeOk then (false, st, [])
  else
    let st1 := { st with snapshotFile := some dataCopy }
    match writeOp st1 .CHECKPOINT snapshotId [] ts appendOk with
    | (false, st2) => (false, st2, [.snapWrite dataCopy])
    | (true, st2) =>
      (true, { st2 with ops := 0 },
        [.snapWrite dataCopy, .cpAppend snapshotId])

/-! ## Spec-side definitions

These follow the words of the specification (§4.2 replay contract,
§4.3 identifier format) rather than the C++ control flow; the claims
compare them with the implementation models above. -/

/-- The decodable entries of a journal: every line that is not empty,
not a comment and not malformed, in order. -/
def parsedEntries (content : List Char) : List JournalEntry :=
  (journalLines content).filterMap parseJournalLine

/-- Spec apply semantics: INSERT sets `map[id] = data` overwriting
silently; UPDATE of an absent id is skipped, else sets; REMOVE of an
absent id is skipped, else deletes; CHECKPOINT has no effect. -/
def specApply (m : Store) (e : JournalEntry) : Store :=
  match e.type with
  | .INSERT => storeSet m e.uuid e.data
  | .UPDATE => if storeFind m e.uuid = none then m else storeSet m e.uuid e.data
  | .REMOVE => if storeFind m e.uuid = none then m else storeErase m e.uuid
  | .CHECKPOINT => m

/-- The replay contract of the spec, for a supplied start-after
checkpoint id `c`: ignore all entries until a CHECKPOINT entry with id
`c` is seen, then apply each subsequent non-CHECKPOINT entry to the
map; fail (leaving the map as given) exactly when that CHECKPOINT never
appears. -/
def specReplayFromCheckpoint (content : List Char) (c : List Char) (m : Store) :
    Bool × Store :=
  match findCheckpointIdx c (parsedEntries content) with
  | none => (false, m)
  | some i =>
    (true,
      (((parsedEntries content).drop (i + 1)).filter
        (fun e => decide (e.type ≠ .CHECKPOINT))).foldl specApply m)

/-- The identifier format of the spec:
`xxxxxxxx-xxxx-4xxx-yxxx-xxxxxxxxxxxx` with lowercase hex groups of
lengths 8, 4, 3, 3, 12, a literal `4` opening the third group and a
variant character in `{8, 9, a, b}` opening the fourth — equivalently,
36 characters with hyphens at positions 8, 13, 18 and 23, `4` at
position 14 and the variant at position 19. -/
def uuidStructure (s : List Char) : Prop :=
  ∃ a b c d e : List Char, ∃ yc : Char,
    s = a ++ '-' :: (b ++ '-' :: ('4' :: c ++ '-' :: (yc :: d ++ '-' :: e))) ∧
    a.length = 8 ∧ b.length = 4 ∧ c.length = 3 ∧ d.length = 3 ∧ e.length = 12 ∧
    (∀ ch ∈ a ++ b ++ c ++ d ++ e, isHexLower ch = true) ∧
    (yc = '8' ∨ yc = '9' ∨ yc = 'a' ∨ yc = 'b')

/-! ## Storage manager claims -/

/-- **C2.** If the journal append inside `insert`, `update` or `remove`
fails, the operation reports failure (`none` for insert, `false` for
update/remove) and the whole state — in particular the in-memory
map — is exactly what it was; and whenever one of these operations
changes the map at all, the append succeeded and the corresponding
entry was added to the journal, so every mutation visible in the map is
preceded in program order by its successful journal append. -/
theorem mutation_rollback_on_append_failure (st : SMState) (uuid data ts : List Char) :
    smInsert st uuid data ts false = (none, st) ∧
    smUpdate st uuid data ts false = (false, st) ∧
    smRemove st uuid ts false = (false, st) ∧
    (∀ ok : Bool, (smInsert st uuid data ts ok).2.dataStore = st.dataStore ∨
      (ok = true ∧
        (smInsert st uuid data ts ok).2.journal
          = st.journal ++ [⟨.INSERT, uuid, data, ts⟩])) ∧
    (∀ ok : Bool, (smUpdate st uuid data ts ok).2.dataStore = st.dataStore ∨
      (ok = true ∧
        (smUpdate st uuid data ts ok).2.journal
          = st.journal ++ [⟨.UPDATE, uuid, data, ts⟩])) ∧
    (∀ ok : Bool, (smRemove st uuid ts ok).2.dataStore = st.dataStore ∨
      (ok = true ∧
        (smRemove st uuid ts ok).2.journal
          = st.journal ++ [⟨.REMOVE, uuid, [], ts⟩])) := by
  refine ⟨?_, ?_, ?_, ?_, ?_, ?_⟩
  · by_cases h : uuid = [] <;> simp [smInsert, writeOp, h]
  · by_cases h : storeFind st.dataStore uuid = none <;>
      by_cases h2 : uuid = [] <;> simp [smUpdate, writeOp, h, h2]
  · by_cases h : storeFind st.dataStore uuid = none <;>
      by_cases h2 : uuid = [] <;> simp [smRemove, writeOp, h, h2]
  · intro ok
    cases ok with
    | false => left; by_cases h : uuid = [] <;> simp [smInsert, writeOp, h]
    | true =>
      by_cases h : uuid = []
      · left; simp [smInsert, writeOp, h]
      · right; exact ⟨rfl, by simp [smInsert, writeOp, h, notifyOperation]⟩
  · intro ok
    by_cases hf : storeFind st.dataStore uuid = none
    · left; simp [smUpdate, hf]
    · cases ok with
      | false => left; by_cases h : uuid = [] <;> simp [smUpdate, writeOp, h, hf]
      | true =>
        by_cases h : uuid = []
        · left; simp [smUpdate, writeOp, h, hf]
        · right; exact ⟨rfl, by simp [smUpdate, writeOp, h, hf, notifyOperation]⟩
  · intro ok
    by_cases hf : storeFind st.dataStore uuid = none
    · left; simp [smRemove, hf]
    · cases ok with
      | false => left; by_cases h : uuid = [] <;> simp [smRemove, writeOp, h, hf]
      | true =>
        by_cases h : uuid = []
        · left; simp [smRemove, writeOp, h, hf]
        · right; exact ⟨rfl, by simp [smRemove, writeOp, h, hf, notifyOperation]⟩

/-- **C7.** `update` and `remove` on an id that is absent from the
in-memory map return failure and leave the whole state — map, journal,
counters — exactly as it was, appending nothing to the journal,
whatever the append oracle would have answered. -/
theorem update_remove_absent_id_fail (st : SMState) (uuid data ts : List Char)
    (ok : Bool) (habs : storeFind st.dataStore uuid = none) :
    smUpdate st uuid data ts ok = (false, st) ∧ smRemove st uuid ts ok = (false, st) := by
  constructor <;> simp [smUpdate, smRemove, habs]

/-- Witness for C7 at a concrete state: the empty store with id `"u"`. -/
theorem update_remove_absent_id_fail_witness :
    smUpdate ⟨[], [], none, none, 0, 100, false⟩ "u".data "d".data "t".data true
      = (false, ⟨[], [], none, none, 0, 100, false⟩) :=
  (update_remove_absent_id_fail ⟨[], [], none, none, 0, 100, false⟩
    "u".data "d".data "t".data true rfl).1

/-- **C6.** A successful `createSnapshot` call: the snapshot file now
holds the copied map, the CHECKPOINT entry appended to the journal
carries exactly the one identifier generated for this snapshot (which
also becomes the cached checkpoint id), the operation counter is reset
to zero, and the durable effects happen in the order snapshot write
first, checkpoint append second. -/
theorem createSnapshot_success_shape (st : SMState) (snapshotId ts : List Char)
    (writeOk appendOk : Bool)
    (hok : (createSnapshot st snapshotId ts writeOk appendOk).1 = true) :
    createSnapshot st snapshotId ts writeOk appendOk
      = (true,
         { st with snapshotFile := some st.dataStore,
                   journal := st.journal ++ [⟨.CHECKPOINT, snapshotId, [], ts⟩],
                   lastCheckpointId := some snapshotId,
                   ops := 0 },
         [.snapWrite st.dataStore, .cpAppend snapshotId]) := by
  cases writeOk with
  | false => simp [createSnapshot] at hok
  | true =>
    by_cases h : snapshotId = []
    · simp [createSnapshot, writeOp, h] at hok
    · cases appendOk with
      | false => simp [createSnapshot, writeOp, h] at hok
      | true => simp [createSnapshot, writeOp, h]

/-- Witness for C6 at a concrete state and id. -/
theorem createSnapshot_success_shape_witness :
    createSnapshot ⟨[("k".data, "v".data)], [], none, none, 7, 100, false⟩
        "id1".data "t".data true true
      = (true,
         ⟨[("k".data, "v".data)],
          [⟨.CHECKPOINT, "id1".data, [], "t".data⟩],
          some "id1".data, some [("k".data, "v".data)], 0, 100, false⟩,
         [.snapWrite [("k".data, "v".data)], .cpAppend "id1".data]) := by
  have h := createSnapshot_success_shape
    ⟨[("k".data, "v".data)], [], none, none, 7, 100, false⟩
    "id1".data "t".data true true (by decide)
  simpa using h

/-- **C10.** `get` and `getEntriesCount` are pure reads: they return
the lookup result (resp. the map size) together with the state exactly
as it was — map, journal, cached checkpoint id, snapshot file,
operation counter and request flag all untouched; and each mutation
either fails leaving the state untouched, or succeeds and increments
the operation counter by exactly one (the only way the snapshotter can
be signalled). -/
theorem get_count_leave_state_unchanged (st : SMState) (uuid data ts : List Char)
    (ok : Bool) :
    smGet st uuid = (storeFind st.dataStore uuid, st) ∧
    smGetEntriesCount st = (st.dataStore.length, st) ∧
    (smInsert st uuid data ts ok = (none, st) ∨
      ((smInsert st uuid data ts ok).1 = some uuid ∧
        (smInsert st uuid data ts ok).2.ops = st.ops + 1)) ∧
    (smUpdate st uuid data ts ok = (false, st) ∨
      ((smUpdate st uuid data ts ok).1 = true ∧
        (smUpdate st uuid data ts ok).2.ops = st.ops + 1)) ∧
    (smRemove st uuid ts ok = (false, st) ∨
      ((smRemove st uuid ts ok).1 = true ∧
        (smRemove st uuid ts ok).2.ops = st.ops + 1)) := by
  refine ⟨rfl, rfl, ?_, ?_, ?_⟩
  · by_cases h : uuid = []
    · left; cases ok <;> simp [smInsert, writeOp, h]
    · cases ok with
      | false => left; simp [smInsert, writeOp, h]
      | true => right; exact ⟨by simp [smInsert, writeOp, h], by
          simp [smInsert, writeOp, h, notifyOperation]⟩
  · by_cases hf : storeFind st.dataStore uuid = none
    · left; simp [smUpdate, hf]
    · by_cases h : uuid = []
      · left; cases ok <;> simp [smUpdate, writeOp, h, hf]
      · cases ok with
        | false => left; simp [smUpdate, writeOp, h, hf]
        | true => right; exact ⟨by simp [smUpdate, writeOp, h, hf], by
            simp [smUpdate, writeOp, h, hf, notifyOperation]⟩
  · by_cases hf : storeFind st.dataStore uuid = none
    · left; simp [smRemove, hf]
    · by_cases h : uuid = []
      · left; cases ok <;> simp [smRemove, writeOp, h, hf]
      · cases ok with
        | false => left; simp [smRemove, writeOp, h, hf]
        | true => right; exact ⟨by simp [smRemove, writeOp, h, hf], by
            simp [smRemove, writeOp, h, hf, notifyOperation]⟩

/-! ## Journal truncation (C1) -/

/-- One `readAllEntriesFrom` step with a checkpoint filter never adds a
CHECKPOINT entry to the collected list. -/
theorem readLineStep_preserves_no_checkpoint (cp : List Char)
    (st : Bool × List JournalEntry) (line : List Char)
    (h : ∀ e ∈ st.2, e.type ≠ .CHECKPOINT) :
    ∀ e ∈ (readLineStep true cp st line).2, e.type ≠ .CHECKPOINT := by
  unfold readLineStep
  cases hp : parseJournalLine line with
  | none => simpa using h
  | some e =>
    by_cases hcp : e.type = .CHECKPOINT
    · simpa [hcp] using h
    · cases hfl : st.1 with
      | false => simpa [hcp, hfl] using h
      | true =>
        simp only [hcp, hfl, if_true, if_false]
        intro e' he'
        simp only [List.mem_append, List.mem_singleton] at he'
        rcases he' with he' | rfl
        · exact h e' he'
        · exact hcp

/-- Folding `readLineStep` with a checkpoint filter over any lines
collects no CHECKPOINT entry. -/
theorem foldl_readLineStep_no_checkpoint (cp : List Char) (lines : List (List Char)) :
    ∀ st : Bool × List JournalEntry, (∀ e ∈ st.2, e.type ≠ .CHECKPOINT) →
      ∀ e ∈ (lines.foldl (readLineStep true cp) st).2, e.type ≠ .CHECKPOINT := by
  induction lines with
  | nil => intro st h; simpa using h
  | cons line rest ih =>
    intro st h
    simpa using ih (readLineStep true cp st line)
      (readLineStep_preserves_no_checkpoint cp st line h)

/-- `findCheckpointIdx` finds nothing when no entry passes its test. -/
theorem findCheckpointIdx_eq_none_of (c : List Char) (l : List JournalEntry)
    (h : ∀ e ∈ l, ¬(e.type = .CHECKPOINT ∧ e.uuid = c)) :
    findCheckpointIdx c l = none := by
  induction l with
  | nil => rfl
  | cons e rest ih =>
    simp only [findCheckpointIdx]
    rw [if_neg (h e (List.mem_cons_self e rest)),
      ih (fun e' he' => h e' (List.mem_cons_of_mem e he'))]
    rfl

/-- `findCheckpointIdx` finds nothing in a list without CHECKPOINT
entries. -/
theorem findCheckpointIdx_eq_none (c : List Char) (l : List JournalEntry)
    (h : ∀ e ∈ l, e.type ≠ .CHECKPOINT) : findCheckpointIdx c l = none :=
  findCheckpointIdx_eq_none_of c l (fun e he hc => h e he hc.1)

/-- With a non-empty checkpoint id, `readAllEntriesFrom` returns the
fold of `readLineStep` over the journal lines. -/
theorem readAllEntriesFrom_some (cp content : List Char) (h : cp ≠ []) :
    readAllEntriesFrom (some cp) content
      = some ((journalLines content).foldl (readLineStep true cp) (false, [])).2 := by
  unfold readAllEntriesFrom
  rw [if_neg (by simpa using h)]
  rfl

/-- **C1.** `truncateJournalToCheckpoint` *always* fails (for any
journal content and any non-empty checkpoint id) and therefore never
rewrites the journal: it reads the entries through
`readAllEntriesFrom checkpointId`, which drops every CHECKPOINT entry
(and everything before the named checkpoint), and then searches that
CHECKPOINT-free list for the checkpoint — a search that cannot succeed.
This contradicts the claim and the repository's own test
`JournalManagerTest.TruncateJournalToCheckpoint`, which expects
truncation to a present checkpoint to succeed. -/
theorem truncateJournalToCheckpoint_always_fails (checkpointId content : List Char)
    (hne : checkpointId ≠ []) :
    truncateJournalToCheckpoint checkpointId content = none := by
  have hnocp := foldl_readLineStep_no_checkpoint checkpointId (journalLines content)
    (false, []) (by simp)
  have hfind := findCheckpointIdx_eq_none checkpointId _ hnocp
  unfold truncateJournalToCheckpoint
  rw [if_neg hne, readAllEntriesFrom_some checkpointId content hne]
  simp only [hfind]

/-- Witness for C1 at the failing input:  a journal holding an INSERT,
the CHECKPOINT `cp1` and a later INSERT — exactly the shape the
repository's test builds — on which truncation to `cp1` nevertheless
fails. -/
theorem truncateJournalToCheckpoint_always_fails_witness :
    truncateJournalToCheckpoint "cp1".data
      "# OCTET Journal Format v1.0\nINSERT|u1|t|one\nCHECKPOINT|cp1|t|\nINSERT|u2|t|two\n".data
      = none :=
  truncateJournalToCheckpoint_always_fails "cp1".data
    "# OCTET Journal Format v1.0\nINSERT|u1|t|one\nCHECKPOINT|cp1|t|\nINSERT|u2|t|two\n".data
    (by decide)

/-- The C1 failing input really does contain the CHECKPOINT entry with
id `cp1` among its decodable entries, so the claim says truncation must
succeed there. -/
theorem truncate_failing_input_has_checkpoint :
    findCheckpointIdx "cp1".data
      (parsedEntries
        "# OCTET Journal Format v1.0\nINSERT|u1|t|one\nCHECKPOINT|cp1|t|\nINSERT|u2|t|two\n".data)
      = some 1 := by decide

/-! ## Snapshot codec round-trip (C5) -/

/-- Reading back a little-endian 32-bit value that fits. -/
theorem readU32_u32le (n : Nat) (rest : List Nat) (h : n < 2 ^ 32) :
    readU32 (u32le n ++ rest) = some (n, rest) := by
  simp only [u32le, List.cons_append, List.nil_append, readU32, Option.some.injEq,
    Prod.mk.injEq, and_true]
  omega

/-- Reading back exactly the bytes that were appended. -/
theorem readBytes_exact (l rest : List Nat) :
    readBytes l.length (l ++ rest) = some (l, rest) := by
  unfold readBytes
  rw [if_pos (by simp), List.take_left, List.drop_left]

/-- The decode loop inverts the encode loop entry by entry, provided
every length fits in 32 bits. -/
theorem deserializeEntries_serializeEntries (m : List (List Nat × List Nat))
    (h : ∀ kv ∈ m, kv.1.length < 2 ^ 32 ∧ kv.2.length < 2 ^ 32) :
    deserializeEntries m.length (serializeEntries m) = some m := by
  induction m with
  | nil => rfl
  | cons kv rest ih =>
    obtain ⟨k, v⟩ := kv
    have hk : k.length < 2 ^ 32 := (h (k, v) (List.mem_cons_self _ _)).1
    have hv : v.length < 2 ^ 32 := (h (k, v) (List.mem_cons_self _ _)).2
    have hrest := ih (fun kv hkv => h kv (List.mem_cons_of_mem _ hkv))
    have e1 := readU32_u32le k.length (k ++ (u32le v.length ++ (v ++ serializeEntries rest))) hk
    have e2 := readBytes_exact k (u32le v.length ++ (v ++ serializeEntries rest))
    have e3 := readU32_u32le v.length (v ++ serializeEntries rest) hv
    have e4 := readBytes_exact v (serializeEntries rest)
    simp only [List.length_cons, serializeEntries, deserializeEntries]
    rw [show u32le k.length ++ k ++ (u32le v.length ++ v ++ serializeEntries rest)
        = u32le k.length ++ (k ++ (u32le v.length ++ (v ++ serializeEntries rest)))
      by simp [List.append_assoc]]
    simp only [e1, e2, e3, e4, hrest]

/-- `mapContainsKey` decides key membership. -/
theorem mapContainsKey_eq_false_iff (l : List (List Nat × List Nat)) (k : List Nat) :
    mapContainsKey l k = false ↔ k ∉ l.map Prod.fst := by
  induction l with
  | nil => simp [mapContainsKey]
  | cons kv rest ih =>
    obtain ⟨k', v'⟩ := kv
    by_cases hk : k' = k
    · subst hk; simp [mapContainsKey]
    · have hk2 : k ≠ k' := fun hkk => hk hkk.symm
      simp [mapContainsKey, hk, ih, hk2]

/-- `emplace`-ing a list of pairs with fresh, pairwise distinct keys
appends them all. -/
theorem emplaceAll_of_nodup (m : List (List Nat × List Nat)) :
    ∀ acc : List (List Nat × List Nat),
      (((acc ++ m).map Prod.fst).Nodup) → emplaceAll acc m = acc ++ m := by
  induction m with
  | nil => intro acc _; simp [emplaceAll]
  | cons kv rest ih =>
    intro acc hnd
    obtain ⟨k, v⟩ := kv
    have hnotin : k ∉ acc.map Prod.fst := by
      intro hmem
      simp only [List.map_append, List.nodup_append] at hnd
      exact hnd.2.2 hmem (by simp)
    have hcont : mapContainsKey acc k = false :=
      (mapContainsKey_eq_false_iff acc k).mpr hnotin
    simp only [emplaceAll, hcont, Bool.false_eq_true, if_false]
    rw [ih (acc ++ [(k, v)]) (by simpa using hnd)]
    simp

/-- **C5.** For every map with fewer than `2^32` entries whose keys and
values are each shorter than `2^32` bytes, decoding the snapshot
encoding succeeds and returns exactly the map; and the encoding of the
empty map is exactly the four bytes `00 00 00 00`. -/
theorem snapshot_codec_roundtrip (M : List (List Nat × List Nat))
    (hcount : M.length < 2 ^ 32)
    (hlen : ∀ kv ∈ M, kv.1.length < 2 ^ 32 ∧ kv.2.length < 2 ^ 32)
    (hkeys : (M.map Prod.fst).Nodup) :
    deserializeMap (serializeMap M) = some M ∧
      serializeMap [] = [0, 0, 0, 0] := by
  refine ⟨?_, rfl⟩
  unfold deserializeMap serializeMap
  rw [readU32_u32le _ _ hcount]
  simp only [deserializeEntries_serializeEntries M hlen]
  rw [emplaceAll_of_nodup M [] (by simpa using hkeys)]
  rfl

/-- Witness for C5 on a concrete two-entry map. -/
theorem snapshot_codec_roundtrip_witness :
    deserializeMap (serializeMap [([1, 2], [3]), ([4], [5, 6, 7])])
      = some [([1, 2], [3]), ([4], [5, 6, 7])] :=
  (snapshot_codec_roundtrip [([1, 2], [3]), ([4], [5, 6, 7])]
    (by decide) (by decide) (by decide)).1

/-! ## Identifier generator (C8, C9) -/

/-- `toHexPad` always emits exactly its requested width. -/
theorem toHexPad_length (w : Nat) : ∀ n : Nat, (toHexPad w n).length = w := by
  induction w with
  | zero => intro n; rfl
  | succ w ih => intro n; simp [toHexPad, ih]

/-- A hex digit of a value below 16 is a lowercase hex character. -/
theorem hexDigitChar_isHexLower : ∀ k < 16, isHexLower (hexDigitChar k) = true := by decide

/-- Every character `toHexPad` emits is a lowercase hex character. -/
theorem toHexPad_all_hex (w : Nat) :
    ∀ (n : Nat), ∀ c ∈ toHexPad w n, isHexLower c = true := by
  induction w with
  | zero => intro n c hc; simp [toHexPad] at hc
  | succ w ih =>
    intro n c hc
    simp only [toHexPad, List.mem_append, List.mem_singleton] at hc
    rcases hc with hc | rfl
    · exact ih _ c hc
    · exact hexDigitChar_isHexLower _ (Nat.mod_lt _ (by norm_num))

/-- `hexDigitChar` is injective on digits. -/
theorem hexDigitChar_inj :
    ∀ a < 16, ∀ b < 16, hexDigitChar a = hexDigitChar b → a = b := by decide

/-- `toHexPad w` is injective on values that fit in `w` digits. -/
theorem toHexPad_inj (w : Nat) :
    ∀ a b : Nat, a < 16 ^ w → b < 16 ^ w → toHexPad w a = toHexPad w b → a = b := by
  induction w with
  | zero =>
    intro a b ha hb _
    interval_cases a
    interval_cases b
    rfl
  | succ w ih =>
    intro a b ha hb h
    simp only [toHexPad] at h
    obtain ⟨hpre, hdig⟩ := List.append_inj h (by simp [toHexPad_length])
    have hd : a % 16 = b % 16 := by
      have := List.head_eq_of_cons_eq hdig
      exact hexDigitChar_inj _ (Nat.mod_lt _ (by norm_num)) _ (Nat.mod_lt _ (by norm_num)) this
    have hq : a / 16 = b / 16 := by
      refine ih _ _ ?_ ?_ hpre
      · have : a < 16 ^ w * 16 := by rw [← pow_succ]; exact ha
        exact Nat.div_lt_of_lt_mul (by omega)
      · have : b < 16 ^ w * 16 := by rw [← pow_succ]; exact hb
        exact Nat.div_lt_of_lt_mul (by omega)
    omega

/-- Equal generated identifiers force equal counter components: the
third group of the uuid is exactly `toHexPad 3 (cnt % 2^12)`, and the
groups before it have fixed widths. -/
theorem generateUuid_counter_component (ts1 rnd1 c1 ts2 rnd2 c2 : Nat)
    (h : generateUuid ts1 rnd1 c1 = generateUuid ts2 rnd2 c2) :
    c1 % 2 ^ 12 = c2 % 2 ^ 12 := by
  unfold generateUuid at h
  obtain ⟨-, h⟩ := List.append_inj h (by simp [toHexPad_length])
  injection h with h1 h
  obtain ⟨-, h⟩ := List.append_inj h (by simp [toHexPad_length])
  injection h with h2 h
  obtain ⟨h, -⟩ := List.append_inj h (by simp [toHexPad_length])
  injection h with h3 h
  refine toHexPad_inj 3 _ _ ?_ ?_ h <;>
    exact Nat.lt_of_lt_of_le (Nat.mod_lt _ (by norm_num)) (by norm_num)

/-- **C8 (amended half).** Two `generateUuid` results coming from
counter values that differ modulo 4096 are distinct, whatever the
clock readings and random draws were.  (Within one process the counter
is fetch-and-incremented, so any two calls have distinct counter
values; distinctness of the identifiers is guaranteed only while those
values do not collide modulo 4096.) -/
theorem generateUuid_ne_of_counter_ne (ts1 rnd1 c1 ts2 rnd2 c2 : Nat)
    (hc : c1 % 4096 ≠ c2 % 4096) :
    generateUuid ts1 rnd1 c1 ≠ generateUuid ts2 rnd2 c2 := by
  intro h
  exact hc (generateUuid_counter_component ts1 rnd1 c1 ts2 rnd2 c2 h)

/-- Witness for the amended C8 theorem at concrete inputs. -/
theorem generateUuid_ne_of_counter_ne_witness :
    generateUuid 0 0 0 ≠ generateUuid 0 0 1 :=
  generateUuid_ne_of_counter_ne 0 0 0 0 0 1 (by decide)

/-- **C8 (counterexample).** The claim as stated — over *all* clock
readings and random values no two returned identifiers are equal — is
false: the counter enters the identifier only modulo 4096, so the
5th and the 4101st call (counter values 4 and 4100) return the very
same string whenever the clock reading and the random draw repeat. -/
theorem generateUuid_collision_counterexample :
    generateUuid 5 7 4 = generateUuid 5 7 4100 ∧ (4 : Nat) ≠ 4100 :=
  ⟨by decide, by decide⟩

/-- Variant digits: `8 + k` for `k < 4` prints as `8`, `9`, `a` or `b`. -/
theorem hexDigitChar_variant :
    ∀ k < 4, hexDigitChar (8 + k) = '8' ∨ hexDigitChar (8 + k) = '9' ∨
      hexDigitChar (8 + k) = 'a' ∨ hexDigitChar (8 + k) = 'b' := by decide

/-- Every generated identifier has the spec's structure. -/
theorem generateUuid_structure (ts rnd cnt : Nat) :
    uuidStructure (generateUuid ts rnd cnt) := by
  refine ⟨toHexPad 8 (ts % 2 ^ 32), toHexPad 4 (ts / 2 ^ 32 % 2 ^ 16),
    toHexPad 3 (cnt % 2 ^ 12), toHexPad 3 (rnd / 4 % 2 ^ 12),
    toHexPad 12 (rnd / 2 ^ 14 % 2 ^ 48), hexDigitChar (8 + rnd % 4),
    rfl, toHexPad_length 8 _, toHexPad_length 4 _, toHexPad_length 3 _,
    toHexPad_length 3 _, toHexPad_length 12 _, ?_, ?_⟩
  · intro ch hch
    simp only [List.mem_append] at hch
    rcases hch with ((((hch | hch) | hch) | hch) | hch) <;> exact toHexPad_all_hex _ _ ch hch
  · exact hexDigitChar_variant _ (Nat.mod_lt _ (by norm_num))

/-- `matchHexRun` consumes exactly a given all-hex run. -/
theorem matchHexRun_complete (pre : List Char) :
    ∀ rest : List Char, (∀ c ∈ pre, isHexLower c = true) →
      matchHexRun pre.length (pre ++ rest) = some rest := by
  induction pre with
  | nil => intro rest _; rfl
  | cons c pre ih =>
    intro rest h
    have hc := h c (List.mem_cons_self _ _)
    simp only [List.length_cons, List.cons_append, matchHexRun, hc, if_true]
    exact ih rest (fun c' hc' => h c' (List.mem_cons_of_mem _ hc'))

/-- What a successful `matchHexRun` tells about its input. -/
theorem matchHexRun_sound (n : Nat) :
    ∀ s r : List Char, matchHexRun n s = some r →
      ∃ pre, s = pre ++ r ∧ pre.length = n ∧ ∀ c ∈ pre, isHexLower c = true := by
  induction n with
  | zero =>
    intro s r h
    simp only [matchHexRun, Option.some.injEq] at h
    exact ⟨[], by simp [h], rfl, by simp⟩
  | succ n ih =>
    intro s r h
    cases s with
    | nil => simp [matchHexRun] at h
    | cons c s' =>
      simp only [matchHexRun] at h
      by_cases hc : isHexLower c
      · rw [if_pos hc] at h
        obtain ⟨pre, hs, hl, hh⟩ := ih s' r h
        refine ⟨c :: pre, by simp [hs], by simp [hl], ?_⟩
        intro c' hc'
        rcases List.mem_cons.mp hc' with rfl | hc'
        · exact hc
        · exact hh c' hc'
      · rw [if_neg hc] at h
        exact absurd h (by simp)

/-- What a successful `matchLit` tells about its input. -/
theorem matchLit_sound (c : Char) (s r : List Char) (h : matchLit c s = some r) :
    s = c :: r := by
  cases s with
  | nil => simp [matchLit] at h
  | cons c' s' =>
    simp only [matchLit] at h
    by_cases hc : c' = c
    · rw [if_pos hc] at h
      simp only [Option.some.injEq] at h
      rw [hc, h]
    · rw [if_neg hc] at h
      exact absurd h (by simp)

/-- What a successful `matchVariantChar` tells about its input. -/
theorem matchVariantChar_sound (s r : List Char) (h : matchVariantChar s = some r) :
    ∃ yc, s = yc :: r ∧ (yc = '8' ∨ yc = '9' ∨ yc = 'a' ∨ yc = 'b') := by
  cases s with
  | nil => simp [matchVariantChar] at h
  | cons c s' =>
    simp only [matchVariantChar] at h
    by_cases hc : c = '8' ∨ c = '9' ∨ c = 'a' ∨ c = 'b'
    · rw [if_pos hc] at h
      simp only [Option.some.injEq] at h
      exact ⟨c, by rw [h], hc⟩
    · rw [if_neg hc] at h
      exact absurd h (by simp)

/-- `isValidUuid` accepts exactly the strings with the spec's structure. -/
theorem isValidUuid_iff_uuidStructure (s : List Char) :
    isValidUuid s = true ↔ uuidStructure s := by
  constructor
  · intro h
    unfold isValidUuid at h
    have hchain :
        ((matchHexRun 8 s).bind (matchLit '-') |>.bind (matchHexRun 4)
          |>.bind (matchLit '-') |>.bind (matchLit '4') |>.bind (matchHexRun 3)
          |>.bind (matchLit '-') |>.bind matchVariantChar |>.bind (matchHexRun 3)
          |>.bind (matchLit '-') |>.bind (matchHexRun 12)) = some [] := by
      generalize hm : ((matchHexRun 8 s).bind (matchLit '-') |>.bind (matchHexRun 4)
          |>.bind (matchLit '-') |>.bind (matchLit '4') |>.bind (matchHexRun 3)
          |>.bind (matchLit '-') |>.bind matchVariantChar |>.bind (matchHexRun 3)
          |>.bind (matchLit '-') |>.bind (matchHexRun 12)) = o at h
      cases o with
      | none => simp at h
      | some l => cases l with
        | nil => rfl
        | cons c _ => simp at h
    obtain ⟨t10, hB10, c11⟩ := Option.bind_eq_some.mp hchain
    obtain ⟨t9, hB9, c10⟩ := Option.bind_eq_some.mp hB10
    obtain ⟨t8, hB8, c9⟩ := Option.bind_eq_some.mp hB9
    obtain ⟨t7, hB7, c8⟩ := Option.bind_eq_some.mp hB8
    obtain ⟨t6, hB6, c7⟩ := Option.bind_eq_some.mp hB7
    obtain ⟨t5, hB5, c6⟩ := Option.bind_eq_some.mp hB6
    obtain ⟨t4, hB4, c5⟩ := Option.bind_eq_some.mp hB5
    obtain ⟨t3, hB3, c4⟩ := Option.bind_eq_some.mp hB4
    obtain ⟨t2, hB2, c3⟩ := Option.bind_eq_some.mp hB3
    obtain ⟨t1, c1, c2⟩ := Option.bind_eq_some.mp hB2
    obtain ⟨ga, hsa, hla, hha⟩ := matchHexRun_sound 8 s t1 c1
    have ht1 := matchLit_sound '-' t1 t2 c2
    obtain ⟨gb, hsb, hlb, hhb⟩ := matchHexRun_sound 4 t2 t3 c3
    have ht3 := matchLit_sound '-' t3 t4 c4
    have ht4 := matchLit_sound '4' t4 t5 c5
    obtain ⟨gc, hsc, hlc, hhc⟩ := matchHexRun_sound 3 t5 t6 c6
    have ht6 := matchLit_sound '-' t6 t7 c7
    obtain ⟨yc, ht7, hyc⟩ := matchVariantChar_sound t7 t8 c8
    obtain ⟨gd, hsd, hld, hhd⟩ := matchHexRun_sound 3 t8 t9 c9
    have ht9 := matchLit_sound '-' t9 t10 c10
    obtain ⟨ge, hse, hle, hhe⟩ := matchHexRun_sound 12 t10 [] c11
    refine ⟨ga, gb, gc, gd, ge, yc, ?_, hla, hlb, hlc, hld, hle, ?_, hyc⟩
    · rw [hsa, ht1, hsb, ht3, ht4, hsc, ht6, ht7, hsd, ht9, hse]
      simp
    · intro ch hch
      simp only [List.mem_append] at hch
      rcases hch with ((((hch | hch) | hch) | hch) | hch)
      · exact hha ch hch
      · exact hhb ch hch
      · exact hhc ch hch
      · exact hhd ch hch
      · exact hhe ch hch
  · rintro ⟨a, b, c, d, e, yc, hs, hla, hlb, hlc, hld, hle, hhex, hyc⟩
    have hha : ∀ ch ∈ a, isHexLower ch = true := fun ch hch => hhex ch (by simp [hch])
    have hhb : ∀ ch ∈ b, isHexLower ch = true := fun ch hch => hhex ch (by simp [hch])
    have hhc : ∀ ch ∈ c, isHexLower ch = true := fun ch hch => hhex ch (by simp [hch])
    have hhd : ∀ ch ∈ d, isHexLower ch = true := fun ch hch => hhex ch (by simp [hch])
    have hhe : ∀ ch ∈ e, isHexLower ch = true := fun ch hch => hhex ch (by simp [hch])
    have hlit : ∀ (ch : Char) (l : List Char), matchLit ch (ch :: l) = some l := by
      intro ch l; simp [matchLit]
    have e1 : matchHexRun 8 s
        = some ('-' :: (b ++ '-' :: '4' :: (c ++ '-' :: yc :: (d ++ '-' :: e)))) := by
      rw [hs, ← hla]; exact matchHexRun_complete a _ hha
    have e3 : matchHexRun 4 (b ++ '-' :: '4' :: (c ++ '-' :: yc :: (d ++ '-' :: e)))
        = some ('-' :: '4' :: (c ++ '-' :: yc :: (d ++ '-' :: e))) := by
      rw [← hlb]; exact matchHexRun_complete b _ hhb
    have e6 : matchHexRun 3 (c ++ '-' :: yc :: (d ++ '-' :: e))
        = some ('-' :: yc :: (d ++ '-' :: e)) := by
      rw [← hlc]; exact matchHexRun_complete c _ hhc
    have e8 : matchVariantChar (yc :: (d ++ '-' :: e)) = some (d ++ '-' :: e) := by
      simp [matchVariantChar, hyc]
    have e9 : matchHexRun 3 (d ++ '-' :: e) = some ('-' :: e) := by
      rw [← hld]; exact matchHexRun_complete d _ hhd
    have e11 : matchHexRun 12 (e ++ ([] : List Char)) = some [] := by
      rw [← hle]; exact matchHexRun_complete e _ hhe
    rw [List.append_nil] at e11
    unfold isValidUuid
    simp only [e1, Option.some_bind, hlit, e3, e6, e8, e9, e11]

/-- **C9.** Every generated identifier is exactly 36 characters in the
shape `xxxxxxxx-xxxx-4xxx-yxxx-xxxxxxxxxxxx` (hyphens at positions 8,
13, 18 and 23, a literal `4` at position 14, the variant at position 19
in `{8, 9, a, b}`, lowercase hex everywhere else), and `isValidUuid`
accepts exactly the strings of that structure — in particular every
generated identifier passes `isValidUuid`. -/
theorem generateUuid_format_isValidUuid (ts rnd cnt : Nat) (s : List Char) :
    (generateUuid ts rnd cnt).length = 36 ∧
    isValidUuid (generateUuid ts rnd cnt) = true ∧
    (isValidUuid s = true ↔ uuidStructure s) :=
  ⟨by simp [generateUuid, toHexPad_length],
   (isValidUuid_iff_uuidStructure _).mpr (generateUuid_structure ts rnd cnt),
   isValidUuid_iff_uuidStructure s⟩

/-- Witness for C9 at concrete generator inputs. -/
theorem generateUuid_format_isValidUuid_witness :
    isValidUuid (generateUuid 123456789012345 987654321 77) = true :=
  (generateUuid_format_isValidUuid 123456789012345 987654321 77 []).2.1

/-! ## Journal entry round-trip (C4) -/

/-- Escaped data contains no raw line terminator: LF and CR are turned
into `\n` / `\r`, and the escapes themselves use `\`, `n`, `r` and the
original non-terminator characters only. -/
theorem escapeString_no_terminator (d : List Char) :
    '\n' ∉ escapeString d ∧ '\r' ∉ escapeString d := by
  induction d with
  | nil => simp [escapeString]
  | cons c rest ih =>
    by_cases h1 : c = '|' ∨ c = '\\'
    · simp only [escapeString, h1, if_true]
      rcases h1 with rfl | rfl <;> simp [ih.1, ih.2]
    · by_cases h2 : c = '\n'
      · simp [escapeString, h1, h2, ih.1, ih.2]
      · by_cases h3 : c = '\r'
        · simp [escapeString, h1, h2, h3, ih.1, ih.2]
        · simp [escapeString, h1, h2, h3, ih.1, ih.2]
          exact ⟨fun he => h2 he.symm, fun he => h3 he.symm⟩

/-- Unescaping inverts escaping. -/
theorem unescape_escape (d : List Char) :
    unescapeAux false (escapeString d) = d := by
  induction d with
  | nil => rfl
  | cons c rest ih =>
    by_cases h1 : c = '|' ∨ c = '\\'
    · have hcn : c ≠ 'n' := by rcases h1 with rfl | rfl <;> decide
      have hcr : c ≠ 'r' := by rcases h1 with rfl | rfl <;> decide
      simp [escapeString, h1, unescapeAux, hcn, hcr, ih]
    · by_cases h2 : c = '\n'
      · simp [escapeString, h1, h2, unescapeAux, ih]
      · by_cases h3 : c = '\r'
        · simp [escapeString, h1, h2, h3, unescapeAux, ih]
        · have hcb : c ≠ '\\' := fun hc => h1 (Or.inr hc)
          have hc1 : c ≠ '|' := fun hc => h1 (Or.inl hc)
          simp [escapeString, hc1, hcb, h2, h3, unescapeAux, ih]

/-- `splitBar` cuts exactly at an appended first bar. -/
theorem splitBar_append (xs ys : List Char) (h : '|' ∉ xs) :
    splitBar (xs ++ '|' :: ys) = some (xs, ys) := by
  induction xs with
  | nil => simp [splitBar]
  | cons c rest ih =>
    have hc : c ≠ '|' := fun hc => h (by simp [hc])
    have hrest : '|' ∉ rest := fun hm => h (List.mem_cons_of_mem _ hm)
    simp [splitBar, hc, ih hrest]

/-- No operation-type name contains a bar. -/
theorem bar_not_mem_operationTypeToString (t : OperationType) :
    '|' ∉ operationTypeToString t := by
  cases t <;> decide

/-- Parsing an operation-type name recovers the type. -/
theorem stringToOperationType_operationTypeToString (t : OperationType) :
    stringToOperationType (operationTypeToString t) = some t := by
  cases t <;> rfl

/-- The serialization of an entry with its final line feed removed —
the exact line a journal reader hands back to `deserialize`. -/
theorem serialize_dropLast (e : JournalEntry) :
    (JournalEntry.serialize e).dropLast
      = operationTypeToString e.type ++ '|' ::
          (e.uuid ++ '|' :: (e.timestamp ++ '|' :: escapeString e.data)) := by
  have hshape : JournalEntry.serialize e
      = (operationTypeToString e.type ++ '|' ::
          (e.uuid ++ '|' :: (e.timestamp ++ '|' :: escapeString e.data))) ++ ['\n'] := by
    simp [JournalEntry.serialize]
  rw [hshape, List.dropLast_concat]

/-- **C4 (amended).** For every entry whose id and timestamp are
non-empty and free of `|`, LF and CR, deserializing the serialized
entry *with its trailing line feed removed* (which is how every reader
in the code splits the journal into lines before calling `deserialize`)
yields the entry back exactly — timestamp included — for arbitrary data
bytes, `|`, `\`, LF and CR included.  (The composition without removing
the line terminator fails: see the counterexample.) -/
theorem serialize_roundtrip_on_line (e : JournalEntry)
    (hu : e.uuid ≠ []) (hub : '|' ∉ e.uuid)
    (_hun : '\n' ∉ e.uuid) (_hur : '\r' ∉ e.uuid)
    (ht : e.timestamp ≠ []) (htb : '|' ∉ e.timestamp)
    (_htn : '\n' ∉ e.timestamp) (_htr : '\r' ∉ e.timestamp) :
    JournalEntry.deserialize ((JournalEntry.serialize e).dropLast) = some e := by
  rw [serialize_dropLast]
  have s1 := splitBar_append (operationTypeToString e.type)
    (e.uuid ++ '|' :: (e.timestamp ++ '|' :: escapeString e.data))
    (bar_not_mem_operationTypeToString e.type)
  have s2 := splitBar_append e.uuid (e.timestamp ++ '|' :: escapeString e.data) hub
  have s3 := splitBar_append e.timestamp (escapeString e.data) htb
  have hesc := escapeString_no_terminator e.data
  unfold JournalEntry.deserialize
  simp only [s1, stringToOperationType_operationTypeToString, s2, s3,
    if_neg hu, if_neg ht, hesc.1, hesc.2, or_self, if_false, unescapeString,
    unescape_escape]

/-- Witness for the amended C4 on an entry whose data holds `|`, `\`,
LF and CR. -/
theorem serialize_roundtrip_on_line_witness :
    JournalEntry.deserialize
        ((JournalEntry.serialize
          ⟨.UPDATE, "ab".data, "x|y\\z\nw\rv".data, "ts".data⟩).dropLast)
      = some ⟨.UPDATE, "ab".data, "x|y\\z\nw\rv".data, "ts".data⟩ :=
  serialize_roundtrip_on_line ⟨.UPDATE, "ab".data, "x|y\\z\nw\rv".data, "ts".data⟩
    (by decide) (by decide) (by decide) (by decide)
    (by decide) (by decide) (by decide) (by decide)

/-- **C4 (counterexample).** The claim's literal composition fails:
`serialize` ends its output with a line feed, and the deserialization
regex (`.` excludes line terminators, and `regex_match` must consume
the whole string) rejects any input containing that final LF, so
`deserialize(serialize(e))` is `none` — not `e` — even for a plain
entry well inside the claim's hypotheses. -/
theorem serialize_roundtrip_counterexample :
    ("a".data ≠ ([] : List Char)) ∧ '|' ∉ "a".data ∧ '\n' ∉ "a".data ∧
    ("t".data ≠ ([] : List Char)) ∧ '|' ∉ "t".data ∧ '\n' ∉ "t".data ∧
    JournalEntry.deserialize
        (JournalEntry.serialize ⟨.INSERT, "a".data, "d".data, "t".data⟩) = none := by
  decide

/-! ## Journal replay (C3) -/

/-- The second component of `applyOperation` is the spec's apply
semantics (the Boolean is only logged). -/
theorem applyOperation_snd (e : JournalEntry) (m : Store) :
    (applyOperation e m).2 = specApply m e := by
  cases he : e.type <;> simp only [applyOperation, specApply, he] <;> split <;> rfl

/-- A line that deserializes has a non-empty uuid field (the regex
group `([^|]+)` cannot be empty). -/
theorem deserialize_uuid_ne_nil (line : List Char) (e : JournalEntry)
    (h : JournalEntry.deserialize line = some e) : e.uuid ≠ [] := by
  unfold JournalEntry.deserialize at h
  cases h1 : splitBar line with
  | none => simp only [h1] at h; exact absurd h (by simp)
  | some p =>
    obtain ⟨tstr, r1⟩ := p
    simp only [h1] at h
    cases h2 : stringToOperationType tstr with
    | none => simp only [h2] at h; exact absurd h (by simp)
    | some ty =>
      simp only [h2] at h
      cases h3 : splitBar r1 with
      | none => simp only [h3] at h; exact absurd h (by simp)
      | some q =>
        obtain ⟨uuid, r2⟩ := q
        simp only [h3] at h
        by_cases h4 : uuid = []
        · rw [if_pos h4] at h; exact absurd h (by simp)
        · rw [if_neg h4] at h
          cases h5 : splitBar r2 with
          | none => simp only [h5] at h; exact absurd h (by simp)
          | some w =>
            obtain ⟨ts, dataRaw⟩ := w
            simp only [h5] at h
            by_cases h6 : ts = []
            · rw [if_pos h6] at h; exact absurd h (by simp)
            · rw [if_neg h6] at h
              by_cases h7 : '\n' ∈ dataRaw ∨ '\r' ∈ dataRaw
              · rw [if_pos h7] at h; exact absurd h (by simp)
              · rw [if_neg h7] at h
                simp only [Option.some.injEq] at h
                rw [← h]
                exact h4

/-- Every parsed journal entry has a non-empty uuid. -/
theorem parsedEntries_uuid_ne_nil (content : List Char) :
    ∀ e ∈ parsedEntries content, e.uuid ≠ [] := by
  intro e he
  obtain ⟨line, -, hp⟩ := List.mem_filterMap.mp he
  unfold parseJournalLine at hp
  split at hp
  · exact absurd hp (by simp)
  · exact deserialize_uuid_ne_nil line e hp

/-- Line-level replay is entry-level replay over the parsed entries. -/
theorem foldl_replayLineStep_filterMap (applyFrom : Bool) (cp : List Char)
    (lines : List (List Char)) :
    ∀ st : Bool × Store,
      lines.foldl (replayLineStep applyFrom cp) st
        = (lines.filterMap parseJournalLine).foldl (replayApplyEntry applyFrom cp) st := by
  induction lines with
  | nil => intro st; rfl
  | cons line rest ih =>
    intro st
    cases hp : parseJournalLine line with
    | none => simp [replayLineStep, hp, ih]
    | some e => simp [replayLineStep, hp, ih]

/-- Once the checkpoint has been seen, entry-level replay applies
exactly the non-CHECKPOINT entries. -/
theorem foldl_replayApplyEntry_found (cp : List Char) (entries : List JournalEntry) :
    ∀ m : Store,
      entries.foldl (replayApplyEntry true cp) (true, m)
        = (true,
            (entries.filter (fun e => decide (e.type ≠ .CHECKPOINT))).foldl specApply m) := by
  induction entries with
  | nil => intro m; rfl
  | cons e rest ih =>
    intro m
    by_cases he : e.type = .CHECKPOINT
    · have hstep : replayApplyEntry true cp (true, m) e = (true, m) := by
        simp [replayApplyEntry, he]
      simp [List.foldl_cons, hstep, List.filter_cons, he, ih]
    · have hstep : replayApplyEntry true cp (true, m) e = (true, specApply m e) := by
        simp [replayApplyEntry, he, applyOperation_snd]
      simp [List.foldl_cons, hstep, List.filter_cons, he, ih]

/-- Before the checkpoint has been seen, entry-level replay searches
for it: it fails leaving the map alone if the checkpoint never occurs,
and otherwise applies the non-CHECKPOINT entries after it. -/
theorem foldl_replayApplyEntry_search (cp : List Char) (entries : List JournalEntry) :
    ∀ m : Store,
      entries.foldl (replayApplyEntry true cp) (false, m)
        = (match findCheckpointIdx cp entries with
           | none => (false, m)
           | some i =>
             (true, ((entries.drop (i + 1)).filter
                 (fun e => decide (e.type ≠ .CHECKPOINT))).foldl specApply m)) := by
  induction entries with
  | nil => intro m; rfl
  | cons e rest ih =>
    intro m
    by_cases hcp : e.type = .CHECKPOINT ∧ e.uuid = cp
    · have hstep : replayApplyEntry true cp (false, m) e = (true, m) := by
        simp [replayApplyEntry, hcp.1, hcp.2]
      simp only [List.foldl_cons, hstep, foldl_replayApplyEntry_found,
        findCheckpointIdx, if_pos hcp]
      rfl
    · have hstep : replayApplyEntry true cp (false, m) e = (false, m) := by
        by_cases he : e.type = .CHECKPOINT
        · have hu : e.uuid ≠ cp := fun hu => hcp ⟨he, hu⟩
          simp [replayApplyEntry, he, hu]
        · simp [replayApplyEntry, he]
      simp only [List.foldl_cons, hstep, findCheckpointIdx, if_neg hcp, ih]
      cases hf : findCheckpointIdx cp rest with
      | none => rfl
      | some i => rfl

/-- **C3.** For every journal content, every supplied start-after
checkpoint id `c` and every starting map, `replayJournal` behaves
exactly as the spec's replay contract: blank, comment and malformed
lines are skipped without stopping replay; all entries are ignored
until a CHECKPOINT with id `c` is seen; each subsequent non-CHECKPOINT
entry is applied with the INSERT/UPDATE/REMOVE/CHECKPOINT semantics of
the claim; and the call fails, leaving the map exactly as handed in,
precisely when that CHECKPOINT never appears among the decodable
entries. -/
theorem replayJournal_matches_spec (content c : List Char) (m : Store) :
    replayJournal content (some c) m = specReplayFromCheckpoint content c m := by
  by_cases hc : c = []
  · subst hc
    have hfind : findCheckpointIdx [] (parsedEntries content) = none :=
      findCheckpointIdx_eq_none_of [] _
        (fun e he hp => parsedEntries_uuid_ne_nil content e he hp.2)
    unfold replayJournal specReplayFromCheckpoint
    rw [if_pos rfl]
    simp only [hfind]
  · unfold replayJournal specReplayFromCheckpoint
    rw [if_neg (by simpa using hc)]
    simp only [Option.isSome_some, Option.getD_some,
      foldl_replayLineStep_filterMap true c (journalLines content) (false, m)]
    rw [show (journalLines content).filterMap parseJournalLine = parsedEntries content
      from rfl]
    rw [foldl_replayApplyEntry_search c (parsedEntries content) m]
    cases hf : findCheckpointIdx c (parsedEntries content) with
    | none => rfl
    | some i => rfl

end Octet
